import Mathlib

/-!
Shallow embedding of tools/python/symbolicator/dexdump.py
(class DexdumpSymbolicator) over lists of characters.

Text is modeled as lists of unicode characters; the character classes of
the regular expressions are modeled over their ASCII ranges, matching the
patterns in the source.  Each compiled pattern of the source becomes a
hand-rolled matcher; for these particular patterns greedy character-class
repetition followed by a character outside the class never backtracks, so
maximal munch is exactly the Python `re` semantics.  The `re.sub` scan
(find leftmost match, replace, resume after the match) becomes a fuel
based scanner, where the fuel starts at the length of the input.
-/

/-- One frame of the inlining position stack, as produced by
`line_unmap.PositionMap.get_stack` (a collaborator outside this module). -/
structure Position where
  file : String
  line : Int
deriving DecidableEq

/-- Collaborator `line_unmap.PositionMap`: zero-based renamed line number to
position stack. -/
structure PositionMap where
  get_stack : Int → List Position

/-- Collaborator `debug_line_map.DebugLineMap`: the raw line-number group text
is passed as a string, as in the source.  `none` and `some 0` are both falsy
for the `if mapped_line:` test. -/
structure DebugLineMap where
  find_line_number : Nat → String → Option Int

/-- Collaborator `iodi.IODIMetadata`: qualified method name to method id, for
collision-free methods only. -/
structure IODIMetadata where
  collision_free : String → Option Nat

/-- The `SymbolMaps` record handed to `DexdumpSymbolicator.__init__`.
`debug_line_map` is total here because the loader in symbolicator.py exits
unless it is present whenever `iodi_metadata` is. -/
structure SymbolMaps where
  class_map : String → Option String
  line_map : PositionMap
  debug_line_map : DebugLineMap
  iodi_metadata : Option IODIMetadata

/-- The mutable session state of a `DexdumpSymbolicator` instance. -/
structure DexState where
  reading_methods : Bool
  current_class : Option String
  current_method_id : Option Nat
  last_line : Option Int
deriving DecidableEq

/-- The apostrophe character, written by code point. -/
def quoteC : Char := Char.ofNat 39

/-- Python `\w` over ASCII: letters, digits and underscore. -/
def pyIsWordChar (c : Char) : Bool := c.isAlphanum || c == '_'

/-- Python `\s` over ASCII. -/
def pyIsSpace (c : Char) : Bool :=
  c == ' ' || c == '\t' || c == '\n' || c == '\r' || c.toNat == 11 || c.toNat == 12

/-- The class `[0-9A-Za-z_$]` of CLASS_REGEX. -/
def isIdChar (c : Char) : Bool := c.isAlphanum || c == '_' || c == '$'

/-- The class `[0-9A-Za-z_$\/]` of CLASS_REGEX. -/
def isClsChar (c : Char) : Bool := isIdChar c || c == '/'

/-- The class `[0-9a-f]` of LINE_REGEX. -/
def isHexLower (c : Char) : Bool := c.isDigit || (97 ≤ c.toNat && c.toNat ≤ 102)

/-- The class `[>A-Za-z0-9_$]` of METHOD_REGEX. -/
def isMethodChar (c : Char) : Bool := c.isAlphanum || c == '_' || c == '$' || c == '>'

/-- Does `s` start with the literal sequence `pat`. -/
def startsWithSeq : List Char → List Char → Bool
  | [], _ => true
  | _ :: _, [] => false
  | n :: ns, c :: cs => n == c && startsWithSeq ns cs

/-- Python substring containment (`needle in line`). -/
def containsSeq (needle : List Char) : List Char → Bool
  | [] => startsWithSeq needle []
  | c :: rest => startsWithSeq needle (c :: rest) || containsSeq needle rest

/-- Value of a nonempty decimal digit string, as Python `int`. -/
def digitsToNat (l : List Char) : Nat :=
  l.foldl (fun a c => a * 10 + (c.toNat - 48)) 0

/-- Python `int(...)` restricted to the strings this module feeds it:
defined (as `digitsToNat`) exactly on nonempty all-digit strings, `none`
standing for a raised `ValueError`. -/
def pyInt (l : List Char) : Option Int :=
  if l ≠ [] ∧ l.all Char.isDigit then some ((digitsToNat l : Nat) : Int) else none

/-- Python `", ".join`. -/
def joinSep : List String → String
  | [] => ""
  | [s] => s
  | s :: s2 :: rest => s ++ ", " ++ joinSep (s2 :: rest)

/-- One `"%s:%d" % (p.file, p.line)` entry. -/
def posEntry (p : Position) : String := p.file ++ ":" ++ toString p.line

/-- The comma-joined position stack of renamed line `n`, in resolver order. -/
def joinPositions (maps : SymbolMaps) (n : Int) : String :=
  joinSep ((maps.line_map.get_stack n).map posEntry)

/-- `replace("/", ".")` on the character list. -/
def dotifyL (l : List Char) : List Char := l.map (fun c => if c = '/' then '.' else c)

/-- `replace(".", "/")` on the character list. -/
def slashifyL (l : List Char) : List Char := l.map (fun c => if c = '.' then '/' else c)

/-- Attempt of `CLASS_REGEX` at the start of `s` (the `\b` assertion is
checked by the callers via the preceding character).  On success, returns
the `class` group and the rest of the input after the match. -/
def classTry : List Char → Option (List Char × List Char)
  | c0 :: c1 :: rest =>
    if c0 = 'L' ∧ c1.isAlpha then
      match rest.dropWhile isIdChar with
      | c2 :: r2 =>
        if c2 = '/' then
          match r2.dropWhile isClsChar with
          | c3 :: r3 =>
            if c3 = ';' ∧ r2.takeWhile isClsChar ≠ [] then
              some (c1 :: (rest.takeWhile isIdChar ++ '/' :: r2.takeWhile isClsChar), r3)
            else none
          | [] => none
        else none
      | [] => none
    else none
  | _ => none

/-- `CLASS_REGEX` attempt guarded by the word-boundary state: `prevW` is true
when the character just before the current position is a word character, in
which case `\bL` cannot match here. -/
def classTryAt (prevW : Bool) (s : List Char) : Option (List Char × List Char) :=
  if prevW then none else classTry s

/-- `DexdumpSymbolicator.class_replacer` applied to a matched `class` group:
the replacement text for the whole match. -/
def classRepl (cmap : String → Option String) (cls : List Char) : List Char :=
  match cmap (String.mk (dotifyL cls)) with
  | some orig => 'L' :: slashifyL orig.data ++ [';']
  | none => 'L' :: cls ++ [';']

/-- `CLASS_REGEX.sub(class_replacer, line)`: scan left to right, replace each
match, resume after it.  The fuel starts at the length of the input and
strictly exceeds the length of the remaining input throughout. -/
def classSubAux (cmap : String → Option String) : Nat → Bool → List Char → List Char
  | 0, _, s => s
  | _ + 1, _, [] => []
  | f + 1, prevW, c :: rest =>
    match classTryAt prevW (c :: rest) with
    | some (cls, r3) => classRepl cmap cls ++ classSubAux cmap f false r3
    | none => c :: classSubAux cmap f (pyIsWordChar c) rest

/-- Class-name rewriting of a whole line. -/
def classSubL (cmap : String → Option String) (l : List Char) : List Char :=
  classSubAux cmap l.length false l

/-- First `CLASS_REGEX` match of the line, scanning with the boundary state;
`none` when the line has no class-descriptor match. -/
def classSearchAux : Bool → List Char → Option (List Char × List Char)
  | _, [] => none
  | prevW, c :: rest =>
    match classTryAt prevW (c :: rest) with
    | some r => some r
    | none => classSearchAux (pyIsWordChar c) rest

/-- `CLASS_REGEX.search(line)` (as a match-existence and group function). -/
def classSearch (l : List Char) : Option (List Char × List Char) :=
  classSearchAux false l

/-- The literal `" line="` between the hex offset and the digits group. -/
def lineEqPat : List Char := [' ', 'l', 'i', 'n', 'e', '=']

/-- Attempt of `LINE_REGEX` at the start of `s`.  On success returns the
`prefix` group (`0x<hex> line=`), the `lineno` digits group, and the rest of
the input after the match. -/
def lineCore : List Char → Option (List Char × List Char × List Char)
  | c0 :: c1 :: rest =>
    if c0 = '0' ∧ c1 = 'x' then
      if rest.takeWhile isHexLower ≠ [] then
        if startsWithSeq lineEqPat (rest.dropWhile isHexLower) then
          let r2 := (rest.dropWhile isHexLower).drop lineEqPat.length
          if r2.takeWhile Char.isDigit ≠ [] then
            some ('0' :: 'x' :: (rest.takeWhile isHexLower ++ lineEqPat),
                  r2.takeWhile Char.isDigit, r2.dropWhile Char.isDigit)
          else none
        else none
      else none
    else none
  | _ => none

/-- `LINE_REGEX.sub(line_replacer, line)`: each match is replaced by the
`prefix` group followed by the comma-joined position stack of
`int(lineno) - 1`. -/
def lineSubAux (maps : SymbolMaps) : Nat → List Char → List Char
  | 0, s => s
  | _ + 1, [] => []
  | f + 1, c :: rest =>
    match lineCore (c :: rest) with
    | some (pfx, ds, r3) =>
      pfx ++ (joinPositions maps ((digitsToNat ds : Int) - 1)).data ++ lineSubAux maps f r3
    | none => c :: lineSubAux maps f rest

/-- Line-annotation rewriting of a whole line. -/
def lineSubL (maps : SymbolMaps) (l : List Char) : List Char :=
  lineSubAux maps l.length l

/-- Generic `re.search`: try the matcher at every position, left to right. -/
def searchAux {α : Type} (f : List Char → Option α) : List Char → Option α
  | [] => none
  | c :: rest =>
    match f (c :: rest) with
    | some a => some a
    | none => searchAux f rest

/-- `LINE_REGEX.search(line)`. -/
def lineSearch (l : List Char) : Option (List Char × List Char × List Char) :=
  searchAux lineCore l

/-- Attempt of `METHOD_CLS_HDR_REGEX` at the start of `s`; returns the
`class` group.  Note the first name segment is `[0-9A-Za-z]*`, without
underscore and dollar, unlike CLASS_REGEX. -/
def hdrTry : List Char → Option String
  | c0 :: r1 =>
    if c0 = '#' ∧ r1.takeWhile Char.isDigit ≠ [] then
      if (r1.dropWhile Char.isDigit).takeWhile pyIsSpace ≠ [] then
        match (r1.dropWhile Char.isDigit).dropWhile pyIsSpace with
        | c3 :: r3 =>
          if c3 = ':' ∧ r3.takeWhile pyIsSpace ≠ [] then
            match r3.dropWhile pyIsSpace with
            | '(' :: 'i' :: 'n' :: ' ' :: 'L' :: c4 :: r4 =>
              if c4.isAlpha then
                match r4.dropWhile Char.isAlphanum with
                | c5 :: r5 =>
                  if c5 = '/' ∧ r5.takeWhile isClsChar ≠ [] then
                    match r5.dropWhile isClsChar with
                    | ';' :: ')' :: _ =>
                      some (String.mk
                        (c4 :: (r4.takeWhile Char.isAlphanum ++ '/' :: r5.takeWhile isClsChar)))
                    | _ => none
                  else none
                | [] => none
              else none
            | _ => none
          else none
        | [] => none
      else none
    else none
  | [] => none

/-- `METHOD_CLS_HDR_REGEX.search(line)`. -/
def hdrSearch (l : List Char) : Option String := searchAux hdrTry l

/-- Attempt of `METHOD_REGEX` at the start of `s`; returns the `method`
group. -/
def methodTry : List Char → Option String
  | 'n' :: 'a' :: 'm' :: 'e' :: r1 =>
    if r1.takeWhile pyIsSpace ≠ [] then
      match r1.dropWhile pyIsSpace with
      | ':' :: r2 =>
        if r2.takeWhile pyIsSpace ≠ [] then
          match r2.dropWhile pyIsSpace with
          | q1 :: c1 :: r3 =>
            if q1 = quoteC ∧ (c1.isAlpha ∨ c1 = '<') then
              match r3.dropWhile isMethodChar with
              | q2 :: _ =>
                if q2 = quoteC then some (String.mk (c1 :: r3.takeWhile isMethodChar))
                else none
              | [] => none
            else none
          | _ => none
        else none
      | _ => none
    else none
  | _ => none

/-- `METHOD_REGEX.search(line)`. -/
def methodSearch (l : List Char) : Option String := searchAux methodTry l

/-- `CLS_CHUNK_HDR_REGEX.match(line)`: two spaces then an uppercase letter at
the start of the line. -/
def chunkHdrAt : List Char → Bool
  | c0 :: c1 :: c2 :: _ => decide (c0 = ' ' ∧ c1 = ' ' ∧ 'A' ≤ c2 ∧ c2 ≤ 'Z')
  | _ => false

/-- `CLS_HDR_REGEX.match(line)`: the line starts with `Class #`. -/
def clsHdrAt (l : List Char) : Bool := startsWithSeq "Class #".data l

/-- Both substitutions, in source order: class then line. -/
def applySubs (maps : SymbolMaps) (line : String) : String :=
  String.mk (lineSubL maps (classSubL maps.class_map line.data))

/-- Outcome of the alternate-debug-encoding chain for one line: either the
line is consumed (a `return` inside the chain) or control falls through to
the boundary checks and the substitutions. -/
inductive IodiOut
  | consumed (out : Option String) (st : DexState)
  | fallthrough (st : DexState)
deriving DecidableEq

/-- The `if/elif` chain guarded by `iodi_metadata is not None` in
`DexdumpSymbolicator.symbolicate`, lines 66-103 of the source. -/
def iodiStep (maps : SymbolMaps) (io : IODIMetadata) (st : DexState) (l : List Char) :
    IodiOut :=
  match hdrSearch l with
  | some cls => .fallthrough { st with current_class := some cls }
  | none =>
    match st.current_class with
    | none => .fallthrough st
    | some cc =>
      match methodSearch l with
      | some m =>
        match io.collision_free (String.mk (dotifyL cc.data) ++ "." ++ m) with
        | some mid => .fallthrough { st with current_method_id := some mid }
        | none => .fallthrough st
      | none =>
        match st.current_method_id with
        | none => .fallthrough st
        | some mid =>
          match lineSearch l with
          | none => .fallthrough st
          | some (pfx, ds, _) =>
            match maps.debug_line_map.find_line_number mid (String.mk ds) with
            | none => .fallthrough st
            | some mapped =>
              if mapped = 0 then .fallthrough st
              else if st.last_line = some mapped then .consumed none st
              else
                .consumed
                  (some ("        " ++ String.mk pfx ++ joinPositions maps (mapped - 1) ++ "\n"))
                  { st with last_line := some mapped }

/-- The boundary checks on CLS_CHUNK_HDR_REGEX and CLS_HDR_REGEX, lines
105-115 of the source (`reset_state` does not touch `reading_methods`). -/
def boundaryCheck (st : DexState) (l : List Char) : DexState :=
  if chunkHdrAt l then
    if containsSeq "Direct methods".data l || containsSeq "Virtual methods".data l then
      { st with reading_methods := true }
    else
      { reading_methods := false, current_class := none,
        current_method_id := none, last_line := none }
  else if clsHdrAt l then
    { reading_methods := false, current_class := none,
      current_method_id := none, last_line := none }
  else st

/-- `DexdumpSymbolicator.symbolicate`: returns the emitted text (`none` for a
suppressed line) and the state of the instance after the call. -/
def symbolicate (maps : SymbolMaps) (st : DexState) (line : String) :
    Option String × DexState :=
  match maps.iodi_metadata with
  | none => (some (applySubs maps line), st)
  | some io =>
    match iodiStep maps io st line.data with
    | .consumed out st1 => (out, st1)
    | .fallthrough st1 => (some (applySubs maps line), boundaryCheck st1 line.data)

/-- The tail `.dex'` of the banner pattern. -/
def dexTail : List Char := '.' :: 'd' :: 'e' :: 'x' :: [quoteC]

/-- The literal head `Processing '` of the banner pattern. -/
def procPat : List Char := "Processing ".data ++ [quoteC]

/-- The `.*\.dex'` part of the banner: some run of non-newline characters
followed by the literal tail. -/
def bannerScan : List Char → Bool
  | [] => false
  | c :: rest => startsWithSeq dexTail (c :: rest) || (!(c == '\n') && bannerScan rest)

/-- `re.match("^Processing '.*\.dex'", line)` as a Boolean. -/
def procBanner (l : List Char) : Bool :=
  startsWithSeq procPat l && bannerScan (l.drop procPat.length)

/-- `re.search("Class #\d+", line)` as a Boolean. -/
def classNumScan : List Char → Bool
  | [] => false
  | c :: rest =>
    (startsWithSeq "Class #".data (c :: rest) &&
      (match (c :: rest).drop ("Class #".data).length with
       | d :: _ => d.isDigit
       | [] => false)) ||
    classNumScan rest

/-- `DexdumpSymbolicator.is_likely_dexdump`. -/
def is_likely_dexdump (line : String) : Bool :=
  procBanner line.data || classNumScan line.data

/-- Exception-explicit mirror of LINE_REGEX substitution: the `int(...)`
call inside `line_replacer` is the one operation of the module whose Python
counterpart can raise; here it is `pyInt`, and a raised exception is the
`none` outcome. -/
def lineSubAuxE (maps : SymbolMaps) : Nat → List Char → Option (List Char)
  | 0, s => some s
  | _ + 1, [] => some []
  | f + 1, c :: rest =>
    match lineCore (c :: rest) with
    | some (pfx, ds, r3) =>
      match pyInt ds with
      | none => none
      | some n =>
        (lineSubAuxE maps f r3).map
          (fun t => pfx ++ (joinPositions maps (n - 1)).data ++ t)
    | none => (lineSubAuxE maps f rest).map (c :: ·)

/-- Exception-explicit mirror of both substitutions. -/
def applySubsE (maps : SymbolMaps) (line : String) : Option String :=
  (lineSubAuxE maps (classSubL maps.class_map line.data).length
      (classSubL maps.class_map line.data)).map String.mk

/-- Exception-explicit mirror of `symbolicate`; `none` is a raised
exception escaping the call. -/
def symbolicateE (maps : SymbolMaps) (st : DexState) (line : String) :
    Option (Option String × DexState) :=
  match maps.iodi_metadata with
  | none => (applySubsE maps line).map (fun s => (some s, st))
  | some io =>
    match iodiStep maps io st line.data with
    | .consumed out st1 => some (out, st1)
    | .fallthrough st1 =>
      (applySubsE maps line).map (fun s => (some s, boundaryCheck st1 line.data))

/-- Wordness of the character preceding the position just after `l`, when the
character preceding `l` has wordness `prevW`. -/
def lastWord (prevW : Bool) : List Char → Bool
  | [] => prevW
  | c :: rest => lastWord (pyIsWordChar c) rest

/-- `cls` is exactly a `class` group of CLASS_REGEX: a letter, then id
characters up to the first slash, then a nonempty run of id-or-slash
characters reaching the end of `cls`. -/
def clsOk : List Char → Bool
  | c :: rest =>
    c.isAlpha &&
      (match rest.dropWhile isIdChar with
       | c2 :: r2 => c2 == '/' && decide (r2 ≠ []) && r2.all isClsChar
       | [] => false)
  | [] => false

/-- A line assembled from separator/class-group pairs followed by a tail:
each pair contributes its separator text and the descriptor `L<cls>;`. -/
def mkLine (ps : List (List Char × List Char)) (tail : List Char) : List Char :=
  ps.foldr (fun pr acc => pr.1 ++ ('L' :: (pr.2 ++ ';' :: acc))) tail

/-- The same line after class rewriting: each descriptor replaced by its
`class_replacer` output. -/
def mkOut (cmap : String → Option String) (ps : List (List Char × List Char))
    (tail : List Char) : List Char :=
  ps.foldr (fun pr acc => pr.1 ++ (classRepl cmap pr.2 ++ acc)) tail

/-- A `name : '<m>'` method declaration line, assembled without apostrophe
literals. -/
def mkNameLine (m : String) : String :=
  String.mk ("name : ".data ++ quoteC :: m.data ++ [quoteC])

/-! ### Concrete fixtures for counterexamples and witnesses -/

/-- Tables with the alternate encoding active: method `a.b.foo` has id 2, and
the debug-line remap sends instruction line `1` of method 2 to true line 7. -/
def mapsC1 : SymbolMaps :=
  { class_map := fun _ => none,
    line_map := ⟨fun _ => []⟩,
    debug_line_map := ⟨fun mid s => if mid = 2 ∧ s = "1" then some 7 else none⟩,
    iodi_metadata := some ⟨fun s => if s = "a.b.foo" then some 2 else none⟩ }

/-- Session state in the middle of a dump: a previous method with id 1 whose
last emitted true line was 7. -/
def stC1 : DexState := ⟨true, some "x/y", some 1, some 7⟩

/-- Tables where only `a.b.keep` is collision free (id 1) and instruction
line `5` of method 1 remaps to true line 7. -/
def mapsC3 : SymbolMaps :=
  { class_map := fun _ => none,
    line_map := ⟨fun _ => []⟩,
    debug_line_map := ⟨fun mid s => if mid = 1 ∧ s = "5" then some 7 else none⟩,
    iodi_metadata := some ⟨fun s => if s = "a.b.keep" then some 1 else none⟩ }

/-- State after the previous method `a.b.keep` emitted true line 7. -/
def stC3 : DexState := ⟨true, some "a/b", some 1, some 7⟩

/-- Tables whose debug-line remap always answers 7, with an empty
collision-free map. -/
def mapsC6 : SymbolMaps :=
  { class_map := fun _ => none,
    line_map := ⟨fun _ => []⟩,
    debug_line_map := ⟨fun _ _ => some 7⟩,
    iodi_metadata := some ⟨fun _ => none⟩ }

/-- State inside a methods subsection with a current method id. -/
def stC6 : DexState := ⟨true, some "a/b", some 1, none⟩

/-- Tables for the duplicate-suppression witness: instruction lines `1` and
`2` of method 1 remap to true lines 7 and 8. -/
def mapsC2 : SymbolMaps :=
  { class_map := fun _ => none,
    line_map := ⟨fun n => if n = 6 then [⟨"A.java", 3⟩, ⟨"B.java", 20⟩] else []⟩,
    debug_line_map :=
      ⟨fun mid s =>
        if mid = 1 ∧ s = "1" then some 7
        else if mid = 1 ∧ s = "2" then some 8 else none⟩,
    iodi_metadata := some ⟨fun _ => none⟩ }

/-- State with method 1 current and no line emitted yet. -/
def stC2 : DexState := ⟨true, some "a/b", some 1, none⟩

/-- Tables without the alternate encoding: renamed line 4 resolves to
`Foo.java:10`, and class `com.Foo` is renamed from `a.b.C`. -/
def mapsC4 : SymbolMaps :=
  { class_map := fun s => if s = "com.Foo" then some "a.b.C" else none,
    line_map := ⟨fun n => if n = 4 then [⟨"Foo.java", 10⟩] else []⟩,
    debug_line_map := ⟨fun _ _ => none⟩,
    iodi_metadata := none }

/-- An idle session state. -/
def stIdle : DexState := ⟨false, none, none, none⟩

/-- A state just after a class header, with no method id yet. -/
def stFresh : DexState := ⟨true, some "a/b", none, none⟩

/-! ### Helper lemmas about the scanners -/

theorem tw_of_all_not {p : Char → Bool} {a : List Char} {b0 : Char} (b : List Char)
    (ha : ∀ c ∈ a, p c = true) (hb : p b0 = false) :
    (a ++ b0 :: b).takeWhile p = a := by
  induction a with
  | nil => simp [List.takeWhile_cons, hb]
  | cons x xs ih =>
    have hx : p x = true := ha x (by simp)
    simp only [List.cons_append, List.takeWhile_cons, hx, if_pos]
    rw [ih (fun c hc => ha c (by simp [hc]))]

theorem dw_of_all_not {p : Char → Bool} {a : List Char} {b0 : Char} (b : List Char)
    (ha : ∀ c ∈ a, p c = true) (hb : p b0 = false) :
    (a ++ b0 :: b).dropWhile p = b0 :: b := by
  induction a with
  | nil => simp [List.dropWhile_cons, hb]
  | cons x xs ih =>
    have hx : p x = true := ha x (by simp)
    simp only [List.cons_append, List.dropWhile_cons, hx, if_pos]
    exact ih (fun c hc => ha c (by simp [hc]))

theorem tw_of_all {p : Char → Bool} {a : List Char}
    (ha : ∀ c ∈ a, p c = true) : a.takeWhile p = a := by
  induction a with
  | nil => rfl
  | cons x xs ih =>
    have hx : p x = true := ha x (by simp)
    simp only [List.takeWhile_cons, hx, if_pos]
    rw [ih (fun c hc => ha c (by simp [hc]))]

theorem dw_of_all {p : Char → Bool} {a : List Char}
    (ha : ∀ c ∈ a, p c = true) : a.dropWhile p = [] := by
  induction a with
  | nil => rfl
  | cons x xs ih =>
    have hx : p x = true := ha x (by simp)
    simp only [List.dropWhile_cons, hx, if_pos]
    exact ih (fun c hc => ha c (by simp [hc]))

theorem sw_append (a b : List Char) : startsWithSeq a (a ++ b) = true := by
  induction a with
  | nil => rfl
  | cons x xs ih => simp [startsWithSeq, ih]

theorem lineSubAux_nil (maps : SymbolMaps) (f : Nat) : lineSubAux maps f [] = [] := by
  cases f <;> rfl

theorem classSubAux_nil (cmap : String → Option String) (f : Nat) (prevW : Bool) :
    classSubAux cmap f prevW [] = [] := by
  cases f <;> rfl

theorem classTry_ne_L {c : Char} (r : List Char) (h : c ≠ 'L') :
    classTry (c :: r) = none := by
  cases r with
  | nil => rfl
  | cons c1 rest => simp [classTry, h]

theorem classTryAt_ne_L {c : Char} (prevW : Bool) (r : List Char) (h : c ≠ 'L') :
    classTryAt prevW (c :: r) = none := by
  cases prevW <;> simp [classTryAt, classTry_ne_L r h]

theorem classSubAux_noL (cmap : String → Option String) {s : List Char}
    (hs : ∀ c ∈ s, c ≠ 'L') :
    ∀ (f : Nat) (prevW : Bool), classSubAux cmap f prevW s = s := by
  induction s with
  | nil => intro f prevW; exact classSubAux_nil cmap f prevW
  | cons c rest ih =>
    intro f prevW
    cases f with
    | zero => rfl
    | succ f =>
      have hc : c ≠ 'L' := hs c (by simp)
      simp [classSubAux, classTryAt_ne_L prevW rest hc,
        ih (fun x hx => hs x (by simp [hx])) f]

theorem classSubAux_skip (cmap : String → Option String) {s : List Char}
    (hs : ∀ c ∈ s, c ≠ 'L') :
    ∀ (k : Nat) (prevW : Bool) (t : List Char),
      classSubAux cmap (s.length + k) prevW (s ++ t) =
        s ++ classSubAux cmap k (lastWord prevW s) t := by
  induction s with
  | nil => intro k prevW t; simp [lastWord]
  | cons c rest ih =>
    intro k prevW t
    have hc : c ≠ 'L' := hs c (by simp)
    have hlen : (c :: rest).length + k = (rest.length + k) + 1 := by
      simp [List.length_cons]; omega
    rw [hlen]
    simp only [List.cons_append, List.append_eq, classSubAux,
      classTryAt_ne_L prevW (rest ++ t) hc]
    rw [ih (fun x hx => hs x (by simp [hx])) k (pyIsWordChar c) t]
    simp [lastWord]

theorem classTry_desc {cls : List Char} (t : List Char) (h : clsOk cls = true) :
    classTry ('L' :: (cls ++ ';' :: t)) = some (cls, t) := by
  cases cls with
  | nil => simp [clsOk] at h
  | cons c1 rest =>
    rw [clsOk] at h
    simp only [Bool.and_eq_true] at h
    obtain ⟨halpha, hm⟩ := h
    cases hdw : rest.dropWhile isIdChar with
    | nil => rw [hdw] at hm; simp at hm
    | cons c2 r2 =>
      rw [hdw] at hm
      simp only [Bool.and_eq_true, beq_iff_eq, decide_eq_true_eq] at hm
      obtain ⟨⟨hc2, hr2ne⟩, hr2all⟩ := hm
      subst hc2
      have hallr2 : ∀ c ∈ r2, isClsChar c = true := by
        intro c hc
        exact List.all_eq_true.mp hr2all c hc
      have htw : ∀ c ∈ rest.takeWhile isIdChar, isIdChar c = true :=
        fun c hc => List.mem_takeWhile_imp hc
      have hrest : rest = rest.takeWhile isIdChar ++ '/' :: r2 := by
        conv_lhs => rw [← List.takeWhile_append_dropWhile (p := isIdChar) (l := rest)]
        rw [hdw]
      rw [hrest]
      have e0 : ('L' :: (c1 :: (rest.takeWhile isIdChar ++ '/' :: r2) ++ ';' :: t))
          = 'L' :: c1 :: (rest.takeWhile isIdChar ++ '/' :: (r2 ++ ';' :: t)) := by
        simp
      rw [e0]
      have e1 : (rest.takeWhile isIdChar ++ '/' :: (r2 ++ ';' :: t)).dropWhile isIdChar
          = '/' :: (r2 ++ ';' :: t) := dw_of_all_not _ htw (by decide)
      have e2 : (rest.takeWhile isIdChar ++ '/' :: (r2 ++ ';' :: t)).takeWhile isIdChar
          = rest.takeWhile isIdChar := tw_of_all_not _ htw (by decide)
      have e3 : (r2 ++ ';' :: t).dropWhile isClsChar = ';' :: t :=
        dw_of_all_not _ hallr2 (by decide)
      have e4 : (r2 ++ ';' :: t).takeWhile isClsChar = r2 :=
        tw_of_all_not _ hallr2 (by decide)
      rw [classTry, e1, e2]
      simp only [halpha, and_true, if_pos, reduceIte, e3, e4]
      simp [hr2ne]

theorem mkLine_nil (tail : List Char) : mkLine [] tail = tail := rfl

theorem mkLine_cons (s cls : List Char) (ps : List (List Char × List Char))
    (tail : List Char) :
    mkLine ((s, cls) :: ps) tail = s ++ ('L' :: (cls ++ ';' :: mkLine ps tail)) := rfl

theorem mkOut_nil (cmap : String → Option String) (tail : List Char) :
    mkOut cmap [] tail = tail := rfl

theorem mkOut_cons (cmap : String → Option String) (s cls : List Char)
    (ps : List (List Char × List Char)) (tail : List Char) :
    mkOut cmap ((s, cls) :: ps) tail = s ++ (classRepl cmap cls ++ mkOut cmap ps tail) := rfl

theorem classSubAux_segments (cmap : String → Option String) :
    ∀ (ps : List (List Char × List Char)) (tail : List Char) (k : Nat),
      (∀ pr ∈ ps,
        (∀ c ∈ pr.1, c ≠ 'L') ∧ lastWord false pr.1 = false ∧ clsOk pr.2 = true) →
      (∀ c ∈ tail, c ≠ 'L') →
      classSubAux cmap ((mkLine ps tail).length + k) false (mkLine ps tail) =
        mkOut cmap ps tail := by
  intro ps
  induction ps with
  | nil =>
    intro tail k _ htail
    rw [mkLine_nil, mkOut_nil]
    exact classSubAux_noL cmap htail _ false
  | cons pr ps ih =>
    intro tail k hps htail
    obtain ⟨s, cls⟩ := pr
    obtain ⟨hsL, hsW, hcls⟩ := hps (s, cls) (by simp)
    have hsL : ∀ c ∈ s, c ≠ 'L' := hsL
    have hsW : lastWord false s = false := hsW
    have hcls : clsOk cls = true := hcls
    have hps' : ∀ pr ∈ ps,
        (∀ c ∈ pr.1, c ≠ 'L') ∧ lastWord false pr.1 = false ∧ clsOk pr.2 = true :=
      fun pr hpr => hps pr (by simp [hpr])
    rw [mkLine_cons, mkOut_cons]
    have hlen : (s ++ ('L' :: (cls ++ ';' :: mkLine ps tail))).length + k
        = s.length + (('L' :: (cls ++ ';' :: mkLine ps tail)).length + k) := by
      simp [List.length_append]; omega
    rw [hlen, classSubAux_skip cmap hsL, hsW]
    have hlen2 : ('L' :: (cls ++ ';' :: mkLine ps tail)).length + k
        = ((mkLine ps tail).length + (cls.length + 1 + k)) + 1 := by
      simp [List.length_append, List.length_cons]; omega
    rw [hlen2]
    rw [classSubAux]
    have hat : classTryAt false ('L' :: (cls ++ ';' :: mkLine ps tail))
        = some (cls, mkLine ps tail) := by
      rw [classTryAt, if_neg (by simp)]
      exact classTry_desc _ hcls
    rw [hat]
    dsimp only
    rw [ih tail (cls.length + 1 + k) hps' htail]

theorem classSubL_segments (cmap : String → Option String)
    (ps : List (List Char × List Char)) (tail : List Char)
    (hps : ∀ pr ∈ ps,
      (∀ c ∈ pr.1, c ≠ 'L') ∧ lastWord false pr.1 = false ∧ clsOk pr.2 = true)
    (htail : ∀ c ∈ tail, c ≠ 'L') :
    classSubL cmap (mkLine ps tail) = mkOut cmap ps tail := by
  rw [classSubL]
  have : (mkLine ps tail).length = (mkLine ps tail).length + 0 := by omega
  rw [this]
  exact classSubAux_segments cmap ps tail 0 hps htail

theorem lineCore_ne0 {c : Char} (r : List Char) (h : c ≠ '0') :
    lineCore (c :: r) = none := by
  cases r with
  | nil => rfl
  | cons c1 rest => simp [lineCore, h]

theorem lineSubAux_no0 (maps : SymbolMaps) {s : List Char}
    (hs : ∀ c ∈ s, c ≠ '0') :
    ∀ f : Nat, lineSubAux maps f s = s := by
  induction s with
  | nil => intro f; exact lineSubAux_nil maps f
  | cons c rest ih =>
    intro f
    cases f with
    | zero => rfl
    | succ f =>
      have hc : c ≠ '0' := hs c (by simp)
      simp [lineSubAux, lineCore_ne0 rest hc, ih (fun x hx => hs x (by simp [hx])) f]

theorem lineSubAux_skip (maps : SymbolMaps) {s : List Char}
    (hs : ∀ c ∈ s, c ≠ '0') :
    ∀ (k : Nat) (t : List Char),
      lineSubAux maps (s.length + k) (s ++ t) = s ++ lineSubAux maps k t := by
  induction s with
  | nil => intro k t; simp
  | cons c rest ih =>
    intro k t
    have hc : c ≠ '0' := hs c (by simp)
    have hlen : (c :: rest).length + k = (rest.length + k) + 1 := by
      simp [List.length_cons]; omega
    rw [hlen]
    simp only [List.cons_append, List.append_eq, lineSubAux, lineCore_ne0 (rest ++ t) hc]
    rw [ih (fun x hx => hs x (by simp [hx])) k t]

theorem searchAux_none_cons {α : Type} (f : List Char → Option α) {c : Char}
    {rest : List Char} (h : searchAux f (c :: rest) = none) :
    f (c :: rest) = none ∧ searchAux f rest = none := by
  rw [searchAux] at h
  cases hf : f (c :: rest) with
  | some a => rw [hf] at h; simp at h
  | none => rw [hf] at h; exact ⟨rfl, h⟩

theorem lineSubAux_noMatch (maps : SymbolMaps) {s : List Char}
    (h : searchAux lineCore s = none) :
    ∀ f : Nat, lineSubAux maps f s = s := by
  induction s with
  | nil => intro f; exact lineSubAux_nil maps f
  | cons c rest ih =>
    obtain ⟨hc, hrest⟩ := searchAux_none_cons lineCore h
    intro f
    cases f with
    | zero => rfl
    | succ f => simp [lineSubAux, hc, ih hrest f]

theorem classSearchAux_none_cons {prevW : Bool} {c : Char} {rest : List Char}
    (h : classSearchAux prevW (c :: rest) = none) :
    classTryAt prevW (c :: rest) = none ∧ classSearchAux (pyIsWordChar c) rest = none := by
  rw [classSearchAux] at h
  cases hf : classTryAt prevW (c :: rest) with
  | some a => rw [hf] at h; simp at h
  | none => rw [hf] at h; exact ⟨rfl, h⟩

theorem classSubAux_noMatch (cmap : String → Option String) :
    ∀ {s : List Char} {prevW : Bool}, classSearchAux prevW s = none →
      ∀ f : Nat, classSubAux cmap f prevW s = s := by
  intro s
  induction s with
  | nil => intro prevW _ f; exact classSubAux_nil cmap f prevW
  | cons c rest ih =>
    intro prevW h f
    obtain ⟨hc, hrest⟩ := classSearchAux_none_cons h
    cases f with
    | zero => rfl
    | succ f => simp [classSubAux, hc, ih hrest f]

theorem iodiStep_fallthrough (maps : SymbolMaps) (io : IODIMetadata) (st : DexState)
    {l : List Char} (h : lineSearch l = none) :
    ∃ st1, iodiStep maps io st l = .fallthrough st1 := by
  rw [iodiStep]
  cases hh : hdrSearch l with
  | some cls => exact ⟨_, rfl⟩
  | none =>
    cases hcc : st.current_class with
    | none => exact ⟨st, rfl⟩
    | some cc =>
      cases hms : methodSearch l with
      | some m =>
        cases him : io.collision_free (String.mk (dotifyL cc.data) ++ "." ++ m) with
        | some mid => simp [him]
        | none => simp [him]
      | none =>
        cases hmi : st.current_method_id with
        | none => exact ⟨st, rfl⟩
        | some mid => simp [h]

theorem lineCore_full {hex ds post : List Char}
    (hhne : hex ≠ []) (hhex : ∀ c ∈ hex, isHexLower c = true)
    (hdne : ds ≠ []) (hds : ∀ c ∈ ds, c.isDigit = true)
    (hpost : post.takeWhile Char.isDigit = [] ) :
    lineCore ('0' :: 'x' :: (hex ++ (lineEqPat ++ (ds ++ post))))
      = some ('0' :: 'x' :: (hex ++ lineEqPat), ds, post) := by
  have hdecomp : lineEqPat ++ (ds ++ post) = ' ' :: (['l', 'i', 'n', 'e', '='] ++ (ds ++ post)) := rfl
  have e1 : (hex ++ (lineEqPat ++ (ds ++ post))).takeWhile isHexLower = hex := by
    rw [hdecomp]; exact tw_of_all_not _ hhex (by decide)
  have e2 : (hex ++ (lineEqPat ++ (ds ++ post))).dropWhile isHexLower
      = lineEqPat ++ (ds ++ post) := by
    rw [hdecomp]; exact dw_of_all_not _ hhex (by decide)
  have e3 : startsWithSeq lineEqPat (lineEqPat ++ (ds ++ post)) = true :=
    sw_append _ _
  have e4 : (lineEqPat ++ (ds ++ post)).drop lineEqPat.length = ds ++ post :=
    List.drop_left _ _
  have e5 : (ds ++ post).takeWhile Char.isDigit = ds := by
    cases hp : post with
    | nil =>
      rw [hp] at *
      rw [List.append_nil]
      exact tw_of_all hds
    | cons p0 prest =>
      have hp0 : p0.isDigit = false := by
        rw [hp] at hpost
        rw [List.takeWhile_cons] at hpost
        by_contra hcon
        simp only [Bool.not_eq_false] at hcon
        rw [if_pos hcon] at hpost
        simp at hpost
      exact tw_of_all_not _ hds hp0
  have e6 : (ds ++ post).dropWhile Char.isDigit = post := by
    cases hp : post with
    | nil =>
      rw [hp] at *
      rw [List.append_nil]
      exact dw_of_all hds
    | cons p0 prest =>
      have hp0 : p0.isDigit = false := by
        rw [hp] at hpost
        rw [List.takeWhile_cons] at hpost
        by_contra hcon
        simp only [Bool.not_eq_false] at hcon
        rw [if_pos hcon] at hpost
        simp at hpost
      exact dw_of_all_not _ hds hp0
  rw [lineCore]
  simp only [e1, e2, e3, e4, e5, e6]
  simp [hhne, hdne]

theorem clsHdr_not_chunk {l : List Char} (h : clsHdrAt l = true) :
    chunkHdrAt l = false := by
  cases l with
  | nil => simp [clsHdrAt, startsWithSeq] at h
  | cons c0 t =>
    have hpat : "Class #".data = 'C' :: "lass #".data := rfl
    rw [clsHdrAt, hpat, startsWithSeq] at h
    simp only [Bool.and_eq_true, beq_iff_eq] at h
    obtain ⟨hc0, _⟩ := h
    subst hc0
    cases t with
    | nil => rfl
    | cons c1 t1 =>
      cases t1 with
      | nil => rfl
      | cons c2 t2 => simp [chunkHdrAt]

theorem boundaryCheck_reset_chunk {st : DexState} {l : List Char}
    (hch : chunkHdrAt l = true)
    (hd : containsSeq "Direct methods".data l = false)
    (hv : containsSeq "Virtual methods".data l = false) :
    boundaryCheck st l =
      { reading_methods := false, current_class := none,
        current_method_id := none, last_line := none } := by
  rw [boundaryCheck, if_pos hch, if_neg]
  rw [hd, hv]
  simp

theorem boundaryCheck_reset_cls {st : DexState} {l : List Char}
    (hcl : clsHdrAt l = true) :
    boundaryCheck st l =
      { reading_methods := false, current_class := none,
        current_method_id := none, last_line := none } := by
  rw [boundaryCheck, if_neg (by simp [clsHdr_not_chunk hcl]), if_pos hcl]

theorem lineCore_digits {s pfx ds r : List Char}
    (h : lineCore s = some (pfx, ds, r)) :
    ds ≠ [] ∧ ds.all Char.isDigit = true := by
  cases s with
  | nil => simp [lineCore] at h
  | cons c0 t =>
    cases t with
    | nil => simp [lineCore] at h
    | cons c1 rest =>
      rw [lineCore] at h
      by_cases h01 : c0 = '0' ∧ c1 = 'x'
      · rw [if_pos h01] at h
        by_cases hne : rest.takeWhile isHexLower ≠ []
        · rw [if_pos hne] at h
          by_cases hsw : startsWithSeq lineEqPat (rest.dropWhile isHexLower) = true
          · rw [if_pos hsw] at h
            simp only at h
            by_cases hdd :
                ((rest.dropWhile isHexLower).drop lineEqPat.length).takeWhile Char.isDigit ≠ []
            · rw [if_pos hdd] at h
              simp only [Option.some.injEq, Prod.mk.injEq] at h
              obtain ⟨_, hds, _⟩ := h
              subst hds
              refine ⟨hdd, ?_⟩
              rw [List.all_eq_true]
              intro c hc
              exact List.mem_takeWhile_imp hc
            · rw [if_neg hdd] at h; simp at h
          · rw [if_neg hsw] at h; simp at h
        · rw [if_neg hne] at h; simp at h
      · rw [if_neg h01] at h; simp at h

theorem lineSubAuxE_eq (maps : SymbolMaps) :
    ∀ (f : Nat) (s : List Char),
      lineSubAuxE maps f s = some (lineSubAux maps f s) := by
  intro f
  induction f with
  | zero => intro s; rfl
  | succ f ih =>
    intro s
    cases s with
    | nil => rfl
    | cons c rest =>
      rw [lineSubAuxE, lineSubAux]
      cases hlc : lineCore (c :: rest) with
      | none => simp [ih rest]
      | some v =>
        obtain ⟨pfx, ds, r3⟩ := v
        obtain ⟨hne, hall⟩ := lineCore_digits hlc
        have hpy : pyInt ds = some ((digitsToNat ds : Nat) : Int) := by
          rw [pyInt, if_pos ⟨hne, hall⟩]
        simp [hpy, ih r3]

theorem applySubsE_eq (maps : SymbolMaps) (line : String) :
    applySubsE maps line = some (applySubs maps line) := by
  rw [applySubsE, applySubs, lineSubL, lineSubAuxE_eq]
  rfl

theorem bannerScan_of_split {mid : List Char} (post : List Char)
    (hmid : ∀ c ∈ mid, c ≠ '\n') :
    bannerScan (mid ++ (dexTail ++ post)) = true := by
  induction mid with
  | nil =>
    rw [List.nil_append]
    have hd : dexTail ++ post = '.' :: (['d', 'e', 'x', quoteC] ++ post) := rfl
    rw [hd, bannerScan, ← hd, sw_append]
    simp
  | cons c mrest ih =>
    have hc : c ≠ '\n' := hmid c (by simp)
    rw [List.cons_append, bannerScan]
    rw [ih (fun x hx => hmid x (by simp [hx]))]
    simp [hc]

theorem procBanner_of_split {mid : List Char} (post : List Char)
    (hmid : ∀ c ∈ mid, c ≠ '\n') :
    procBanner (procPat ++ (mid ++ (dexTail ++ post))) = true := by
  rw [procBanner, sw_append, List.drop_left]
  simp [bannerScan_of_split post hmid]

theorem classNumScan_of_split :
    ∀ (pre : List Char) {d : Char} (post : List Char), d.isDigit = true →
      classNumScan (pre ++ ("Class #".data ++ (d :: post))) = true := by
  intro pre
  induction pre with
  | nil =>
    intro d post hd
    rw [List.nil_append]
    have hd0 : "Class #".data ++ (d :: post) = 'C' :: ("lass #".data ++ (d :: post)) := rfl
    rw [hd0, classNumScan, ← hd0, sw_append, List.drop_left]
    simp [hd]
  | cons c prest ih =>
    intro d post hd
    rw [List.cons_append, classNumScan]
    rw [ih post hd]
    simp

/-! ### Claim theorems -/

/-- Claim C10: when the alternate debug encoding is not configured
(`iodi_metadata` is none), `symbolicate` never returns `none`: every call
returns the input line with the class-descriptor and line-annotation
substitutions applied, and the session state is unchanged. -/
theorem C10_no_iodi_always_string (maps : SymbolMaps) (st : DexState) (line : String)
    (h : maps.iodi_metadata = none) :
    symbolicate maps st line = (some (applySubs maps line), st) := by
  simp [symbolicate, h]

/-- Witness for C10 at concrete tables, state and line. -/
theorem C10_witness :
    mapsC4.iodi_metadata = none ∧
      symbolicate mapsC4 stIdle "0x0010 line=5 Lcom/Foo;"
        = (some (applySubs mapsC4 "0x0010 line=5 Lcom/Foo;"), stIdle) :=
  ⟨rfl, C10_no_iodi_always_string mapsC4 stIdle "0x0010 line=5 Lcom/Foo;" rfl⟩

/-- Claim C7: for every table set, state and input line, `symbolicate`
returns normally (a string or `none`, never an exception): the
exception-explicit mirror `symbolicateE`, whose `int(...)` call can fail,
always takes the ok outcome and agrees with `symbolicate`. -/
theorem C7_never_raises (maps : SymbolMaps) (st : DexState) (line : String) :
    symbolicateE maps st line = some (symbolicate maps st line) := by
  cases h : maps.iodi_metadata with
  | none => simp [symbolicateE, symbolicate, h, applySubsE_eq]
  | some io =>
    cases hs : iodiStep maps io st line.data with
    | consumed out st1 => simp [symbolicateE, symbolicate, h, hs]
    | fallthrough st1 => simp [symbolicateE, symbolicate, h, hs, applySubsE_eq]

/-- Claim C8: an input line containing neither a class-descriptor match nor
a line-annotation match is returned unchanged (for any tables and state). -/
theorem C8_identity_on_nonmatching (maps : SymbolMaps) (st : DexState) (line : String)
    (hcs : classSearch line.data = none) (hls : lineSearch line.data = none) :
    (symbolicate maps st line).1 = some line := by
  have hsubs : applySubs maps line = line := by
    rw [applySubs, classSubL, classSubAux_noMatch maps.class_map hcs, lineSubL,
      lineSubAux_noMatch maps hls]
  cases h : maps.iodi_metadata with
  | none => simp [symbolicate, h, hsubs]
  | some io =>
    obtain ⟨st1, hft⟩ := iodiStep_fallthrough maps io st hls
    simp [symbolicate, h, hft, hsubs]

/-- Witness for C8 at a concrete non-matching line, with the alternate
encoding active. -/
theorem C8_witness :
    classSearch ("hello world").data = none ∧ lineSearch ("hello world").data = none ∧
      (symbolicate mapsC6 stC6 "hello world").1 = some "hello world" :=
  ⟨by decide, by decide,
   C8_identity_on_nonmatching mapsC6 stC6 "hello world" (by decide) (by decide)⟩

/-- Claim C9: `is_likely_dexdump` is true for every line that starts with a
Processing banner (the literal head, any run of non-newline characters, then
the `.dex` tail with its closing quote) and for every line containing
`Class #` immediately followed by a digit; it is false for a line matching
neither pattern. -/
theorem C9_detector :
    (∀ mid post : List Char, (∀ c ∈ mid, c ≠ '\n') →
        is_likely_dexdump (String.mk (procPat ++ (mid ++ (dexTail ++ post)))) = true) ∧
    (∀ (pre : List Char) (d : Char) (post : List Char), d.isDigit = true →
        is_likely_dexdump (String.mk (pre ++ ("Class #".data ++ (d :: post)))) = true) ∧
    is_likely_dexdump "hello world" = false := by
  refine ⟨?_, ?_, by decide⟩
  · intro mid post hmid
    rw [is_likely_dexdump]
    have hd : (String.mk (procPat ++ (mid ++ (dexTail ++ post)))).data
        = procPat ++ (mid ++ (dexTail ++ post)) := rfl
    rw [hd, procBanner_of_split post hmid]
    simp
  · intro pre d post hd
    rw [is_likely_dexdump]
    have hdd : (String.mk (pre ++ ("Class #".data ++ (d :: post)))).data
        = pre ++ ("Class #".data ++ (d :: post)) := rfl
    rw [hdd, classNumScan_of_split pre post hd]
    simp

/-- Witness for C9: the two positive patterns at concrete lines. -/
theorem C9_witness :
    is_likely_dexdump (String.mk (procPat ++ ("foo".data ++ (dexTail ++ "...".data)))) = true ∧
      is_likely_dexdump (String.mk ("log ".data ++ ("Class #".data ++ ('3' :: [])))) = true :=
  ⟨C9_detector.1 "foo".data "...".data (by decide),
   C9_detector.2.1 "log ".data '3' [] (by decide)⟩

/-- Claim C1 counterexample: a method/class section header line sets
current_class but does not clear current_method_id or last_line, and the
stale last_line then suppresses the first instruction line of the new
method (class a/b, method foo with id 2, whose line 1 remaps to 7, the last
line emitted for the previous method). -/
theorem C1_counterexample :
    hdrSearch ("#1  :  (in La/b;)").data = some "a/b" ∧
    (symbolicate mapsC1 stC1 "#1  :  (in La/b;)").2.current_class = some "a/b" ∧
    (symbolicate mapsC1 stC1 "#1  :  (in La/b;)").2.current_method_id = some 1 ∧
    (symbolicate mapsC1 stC1 "#1  :  (in La/b;)").2.last_line = some 7 ∧
    (symbolicate mapsC1
        (symbolicate mapsC1 (symbolicate mapsC1 stC1 "#1  :  (in La/b;)").2
          (mkNameLine "foo")).2
        "0x0001 line=1").1 = none := by
  decide

/-- Claim C1 amended: a header line that matches METHOD_CLS_HDR_REGEX (and
is not itself a subsection or class boundary line) records the extracted
class in current_class and leaves current_method_id and last_line (and
reading_methods) unchanged, so the suppression state survives into the next
method. -/
theorem C1_amended (maps : SymbolMaps) (io : IODIMetadata) (st : DexState)
    (line : String) (cls : String)
    (hio : maps.iodi_metadata = some io)
    (hh : hdrSearch line.data = some cls)
    (hch : chunkHdrAt line.data = false)
    (hcl : clsHdrAt line.data = false) :
    symbolicate maps st line
      = (some (applySubs maps line), { st with current_class := some cls }) := by
  simp [symbolicate, hio, iodiStep, hh, boundaryCheck, hch, hcl]

/-- Witness for C1 amended at a concrete header line and state. -/
theorem C1_amended_witness :
    hdrSearch ("#1  :  (in Lc/d;)").data = some "c/d" ∧
    symbolicate mapsC1 stC1 "#1  :  (in Lc/d;)"
      = (some (applySubs mapsC1 "#1  :  (in Lc/d;)"),
         { stC1 with current_class := some "c/d" }) :=
  ⟨by decide,
   C1_amended mapsC1 ⟨fun s => if s = "a.b.foo" then some 2 else none⟩ stC1
     "#1  :  (in Lc/d;)" "c/d" rfl (by decide) (by decide) (by decide)⟩

/-- Claim C3 counterexample: the qualified method a.b.gone is absent from
the collision-free map, yet after its declaration the stale method id 1
remains current, and the following instruction line is suppressed by the
alternate-encoding path rather than passed to the simple rewriter. -/
theorem C3_counterexample :
    (mapsC3.iodi_metadata.map (fun io => io.collision_free "a.b.gone")) = some none ∧
    (symbolicate mapsC3 stC3 (mkNameLine "gone")).2.current_method_id = some 1 ∧
    (symbolicate mapsC3 (symbolicate mapsC3 stC3 (mkNameLine "gone")).2
        "0x0002 line=5").1 = none := by
  decide

/-- Claim C3 amended: a method declaration whose qualified name is absent
from the collision-free map leaves the whole state unchanged (in particular
current_method_id is not cleared); instruction lines fall through to the
simple rewriter only when current_method_id is none at that point. -/
theorem C3_amended (maps : SymbolMaps) (io : IODIMetadata) (st : DexState)
    (cc : String) (m : String) (nameLn instrLn : String)
    (hio : maps.iodi_metadata = some io)
    (hcc : st.current_class = some cc)
    (hmidnone : st.current_method_id = none)
    (hh1 : hdrSearch nameLn.data = none)
    (hm1 : methodSearch nameLn.data = some m)
    (habsent : io.collision_free (String.mk (dotifyL cc.data) ++ "." ++ m) = none)
    (hch1 : chunkHdrAt nameLn.data = false) (hcl1 : clsHdrAt nameLn.data = false)
    (hh2 : hdrSearch instrLn.data = none) (hm2 : methodSearch instrLn.data = none)
    (hch2 : chunkHdrAt instrLn.data = false) (hcl2 : clsHdrAt instrLn.data = false) :
    symbolicate maps st nameLn = (some (applySubs maps nameLn), st) ∧
    symbolicate maps st instrLn = (some (applySubs maps instrLn), st) := by
  constructor
  · simp [symbolicate, hio, iodiStep, hh1, hcc, hm1, habsent, boundaryCheck, hch1, hcl1]
  · simp [symbolicate, hio, iodiStep, hh2, hcc, hm2, hmidnone, boundaryCheck, hch2, hcl2]

/-- Witness for C3 amended: with no current method id, the collision method
declaration and a following instruction line both pass through. -/
theorem C3_amended_witness :
    stFresh.current_method_id = none ∧
    (symbolicate mapsC3 stFresh (mkNameLine "gone")
        = (some (applySubs mapsC3 (mkNameLine "gone")), stFresh) ∧
      symbolicate mapsC3 stFresh "0x0002 line=5"
        = (some (applySubs mapsC3 "0x0002 line=5"), stFresh)) :=
  ⟨rfl,
   C3_amended mapsC3 ⟨fun s => if s = "a.b.keep" then some 1 else none⟩ stFresh
     "a/b" "gone" (mkNameLine "gone") "0x0002 line=5" rfl rfl rfl
     (by decide) (by decide) (by decide) (by decide) (by decide)
     (by decide) (by decide) (by decide) (by decide)⟩

/-- Claim C6 counterexample: a two-space capitalized subsection header line
that is neither a Direct methods nor a Virtual methods listing, but also
matches the instruction-line pattern while a method id is current, is
consumed by the emission path before the boundary reset runs: the state is
not reset. -/
theorem C6_counterexample :
    chunkHdrAt ("  X 0x0 line=5").data = true ∧
    containsSeq "Direct methods".data ("  X 0x0 line=5").data = false ∧
    containsSeq "Virtual methods".data ("  X 0x0 line=5").data = false ∧
    (symbolicate mapsC6 stC6 "  X 0x0 line=5").2.current_method_id = some 1 ∧
    (symbolicate mapsC6 stC6 "  X 0x0 line=5").2.current_class = some "a/b" := by
  decide

/-- Claim C6 amended: a non-methods subsection header, or a Class # header,
resets all session state, provided the line is not consumed by the
instruction-line path (here: the line has no LINE_REGEX match, which every
real subsection or class header satisfies). -/
theorem C6_amended (maps : SymbolMaps) (io : IODIMetadata) (st : DexState) (line : String)
    (hio : maps.iodi_metadata = some io)
    (hnl : lineSearch line.data = none)
    (hb : (chunkHdrAt line.data = true ∧
            containsSeq "Direct methods".data line.data = false ∧
            containsSeq "Virtual methods".data line.data = false) ∨
          clsHdrAt line.data = true) :
    (symbolicate maps st line).2
      = { reading_methods := false, current_class := none,
          current_method_id := none, last_line := none } := by
  obtain ⟨st1, hft⟩ := iodiStep_fallthrough maps io st hnl
  simp only [symbolicate, hio, hft]
  rcases hb with ⟨hch, hd, hv⟩ | hcl
  · exact boundaryCheck_reset_chunk hch hd hv
  · exact boundaryCheck_reset_cls hcl

/-- Witness for C6 amended: a fields subsection header and a class header
both reset the full state. -/
theorem C6_amended_witness :
    (symbolicate mapsC6 stC6 "  Instance fields").2
        = { reading_methods := false, current_class := none,
            current_method_id := none, last_line := none } ∧
    (symbolicate mapsC6 stC6 "Class #2").2
        = { reading_methods := false, current_class := none,
            current_method_id := none, last_line := none } :=
  ⟨C6_amended mapsC6 ⟨fun _ => none⟩ stC6 "  Instance fields" rfl (by decide)
     (Or.inl ⟨by decide, by decide, by decide⟩),
   C6_amended mapsC6 ⟨fun _ => none⟩ stC6 "Class #2" rfl (by decide)
     (Or.inr (by decide))⟩

/-- Claim C2: with the alternate encoding active, a current class and a
current method id, two consecutive instruction lines whose remap yields the
same nonzero true line L emit the expansion once (eight spaces of
indentation, the original match prefix, the comma-joined position stack of
L - 1 in resolver order, and a newline) and suppress the second (`none`);
a following line remapping to a different nonzero true line is emitted
again. -/
theorem C2_duplicate_suppression (maps : SymbolMaps) (io : IODIMetadata)
    (st : DexState) (cc : String) (mid : Nat) (l1 l2 l3 : String)
    (p1 d1 r1 p2 d2 r2 p3 d3 r3 : List Char) (L L' : Int)
    (hio : maps.iodi_metadata = some io)
    (hcc : st.current_class = some cc)
    (hmid : st.current_method_id = some mid)
    (hlast : st.last_line ≠ some L)
    (hh1 : hdrSearch l1.data = none) (hm1 : methodSearch l1.data = none)
    (hl1 : lineSearch l1.data = some (p1, d1, r1))
    (hf1 : maps.debug_line_map.find_line_number mid (String.mk d1) = some L)
    (hh2 : hdrSearch l2.data = none) (hm2 : methodSearch l2.data = none)
    (hl2 : lineSearch l2.data = some (p2, d2, r2))
    (hf2 : maps.debug_line_map.find_line_number mid (String.mk d2) = some L)
    (hh3 : hdrSearch l3.data = none) (hm3 : methodSearch l3.data = none)
    (hl3 : lineSearch l3.data = some (p3, d3, r3))
    (hf3 : maps.debug_line_map.find_line_number mid (String.mk d3) = some L')
    (hL : L ≠ 0) (hL' : L' ≠ 0) (hLL : L' ≠ L) :
    symbolicate maps st l1
        = (some ("        " ++ String.mk p1 ++ joinPositions maps (L - 1) ++ "\n"),
           { st with last_line := some L }) ∧
    symbolicate maps { st with last_line := some L } l2
        = (none, { st with last_line := some L }) ∧
    (symbolicate maps { st with last_line := some L } l3).1
        = some ("        " ++ String.mk p3 ++ joinPositions maps (L' - 1) ++ "\n") := by
  have hLL' : L ≠ L' := fun h => hLL h.symm
  have s1 : iodiStep maps io st l1.data
      = .consumed (some ("        " ++ String.mk p1 ++ joinPositions maps (L - 1) ++ "\n"))
          { st with last_line := some L } := by
    simp [iodiStep, hh1, hcc, hm1, hmid, hl1, hf1, hL, hlast]
  have s2 : iodiStep maps io { st with last_line := some L } l2.data
      = .consumed none { st with last_line := some L } := by
    simp [iodiStep, hh2, hcc, hm2, hmid, hl2, hf2, hL]
  have s3 : iodiStep maps io { st with last_line := some L } l3.data
      = .consumed (some ("        " ++ String.mk p3 ++ joinPositions maps (L' - 1) ++ "\n"))
          { st with last_line := some L' } := by
    simp [iodiStep, hh3, hcc, hm3, hmid, hl3, hf3, hL', hLL']
  refine ⟨?_, ?_, ?_⟩ <;> simp [symbolicate, hio, s1, s2, s3]

/-- Witness for C2 at concrete tables: lines 1, 1, 2 of method 1 remap to
7, 7, 8; the first emits, the second is suppressed, the third emits. -/
theorem C2_witness :
    symbolicate mapsC2 stC2 "0x0001 line=1"
        = (some ("        " ++ String.mk ("0x0001 line=").data
            ++ joinPositions mapsC2 (7 - 1) ++ "\n"),
           { stC2 with last_line := some 7 }) ∧
    symbolicate mapsC2 { stC2 with last_line := some 7 } "0x0005 line=1"
        = (none, { stC2 with last_line := some 7 }) ∧
    (symbolicate mapsC2 { stC2 with last_line := some 7 } "0x000a line=2").1
        = some ("        " ++ String.mk ("0x000a line=").data
            ++ joinPositions mapsC2 (8 - 1) ++ "\n") :=
  C2_duplicate_suppression mapsC2 ⟨fun _ => none⟩ stC2 "a/b" 1
    "0x0001 line=1" "0x0005 line=1" "0x000a line=2"
    ("0x0001 line=").data ['1'] [] ("0x0005 line=").data ['1'] []
    ("0x000a line=").data ['2'] [] 7 8
    rfl rfl rfl (by decide)
    (by decide) (by decide) (by decide) (by decide)
    (by decide) (by decide) (by decide) (by decide)
    (by decide) (by decide) (by decide) (by decide)
    (by decide) (by decide) (by decide)

/-- Claim C4: a line made of a matchless preamble, a hex-offset/line=
annotation, and a matchless remainder, not consumed by the alternate path
(here: no alternate encoding configured), is rewritten by replacing the
matched text with the prefix up to and including line= followed by the
comma-joined position stack of the digit value minus one, in resolver
order; an empty stack yields the bare prefix without error. -/
theorem C4_line_expansion (maps : SymbolMaps) (st : DexState)
    (pre hex ds post : List Char)
    (hio : maps.iodi_metadata = none)
    (hpre : ∀ c ∈ pre, c ≠ '0' ∧ c ≠ 'L')
    (hhne : hex ≠ []) (hhex : ∀ c ∈ hex, isHexLower c = true)
    (hdne : ds ≠ []) (hds : ∀ c ∈ ds, c.isDigit = true)
    (hpostL : ∀ c ∈ post, c ≠ '0' ∧ c ≠ 'L')
    (hpostD : post.takeWhile Char.isDigit = []) :
    symbolicate maps st
        (String.mk (pre ++ ('0' :: 'x' :: (hex ++ (lineEqPat ++ (ds ++ post))))))
      = (some (String.mk
          (pre ++ ('0' :: 'x' :: (hex ++ (lineEqPat ++
            ((joinPositions maps ((digitsToNat ds : Int) - 1)).data ++ post)))))), st) := by
  have hexL : ∀ c ∈ hex, c ≠ 'L' := by
    intro c hc heq
    have h := hhex c hc
    subst heq
    simp [isHexLower] at h
  have dsL : ∀ c ∈ ds, c ≠ 'L' := by
    intro c hc heq
    have h := hds c hc
    subst heq
    simp at h
  have hnoL : ∀ c ∈ (pre ++ ('0' :: 'x' :: (hex ++ (lineEqPat ++ (ds ++ post))))),
      c ≠ 'L' := by
    intro c hc
    simp only [List.mem_append, List.mem_cons] at hc
    rcases hc with hc | hc | hc | hc | hc | hc
    · exact (hpre c hc).2
    · subst hc; decide
    · subst hc; decide
    · exact hexL c hc
    · simp only [lineEqPat, List.mem_cons, List.not_mem_nil, or_false] at hc
      rcases hc with rfl | rfl | rfl | rfl | rfl | rfl <;> decide
    · rcases hc with hc | hc
      · exact dsL c hc
      · exact (hpostL c hc).2
  have hclass : classSubL maps.class_map
        (pre ++ ('0' :: 'x' :: (hex ++ (lineEqPat ++ (ds ++ post)))))
      = pre ++ ('0' :: 'x' :: (hex ++ (lineEqPat ++ (ds ++ post)))) := by
    rw [classSubL]
    exact classSubAux_noL maps.class_map hnoL _ false
  have hpre0 : ∀ c ∈ pre, c ≠ '0' := fun c hc => (hpre c hc).1
  have hpost0 : ∀ c ∈ post, c ≠ '0' := fun c hc => (hpostL c hc).1
  have hlinelen : (pre ++ ('0' :: 'x' :: (hex ++ (lineEqPat ++ (ds ++ post))))).length
      = pre.length + ('0' :: 'x' :: (hex ++ (lineEqPat ++ (ds ++ post)))).length := by
    simp [List.length_append]
  have hline : lineSubL maps (pre ++ ('0' :: 'x' :: (hex ++ (lineEqPat ++ (ds ++ post)))))
      = pre ++ ('0' :: 'x' :: (hex ++ (lineEqPat ++
          ((joinPositions maps ((digitsToNat ds : Int) - 1)).data ++ post)))) := by
    rw [lineSubL, hlinelen, lineSubAux_skip maps hpre0]
    congr 1
    have hlen2 : ('0' :: 'x' :: (hex ++ (lineEqPat ++ (ds ++ post)))).length
        = (('x' :: (hex ++ (lineEqPat ++ (ds ++ post)))).length) + 1 := by
      simp
    rw [hlen2, lineSubAux]
    rw [lineCore_full hhne hhex hdne hds hpostD]
    dsimp only
    rw [lineSubAux_no0 maps hpost0]
    simp [List.append_assoc]
  have hsubs : applySubs maps
        (String.mk (pre ++ ('0' :: 'x' :: (hex ++ (lineEqPat ++ (ds ++ post))))))
      = String.mk (pre ++ ('0' :: 'x' :: (hex ++ (lineEqPat ++
          ((joinPositions maps ((digitsToNat ds : Int) - 1)).data ++ post))))) := by
    rw [applySubs]
    have hd : (String.mk (pre ++ ('0' :: 'x' :: (hex ++ (lineEqPat ++ (ds ++ post)))))).data
        = pre ++ ('0' :: 'x' :: (hex ++ (lineEqPat ++ (ds ++ post)))) := rfl
    rw [hd, hclass, hline]
  simp [symbolicate, hio, hsubs]

/-- Witness for C4: `0x0010 line=5` expands through the resolver to
`0x0010 line=Foo.java:10`, and `0x0010 line=7` (whose stack is empty)
degenerates to the bare prefix without error. -/
theorem C4_witness :
    String.mk ([] ++ ('0' :: 'x' :: (['0', '0', '1', '0'] ++ (lineEqPat ++ (['5'] ++ [])))))
        = "0x0010 line=5" ∧
    symbolicate mapsC4 stIdle
        (String.mk ([] ++ ('0' :: 'x' :: (['0', '0', '1', '0'] ++ (lineEqPat ++ (['5'] ++ []))))))
      = (some (String.mk ([] ++ ('0' :: 'x' :: (['0', '0', '1', '0'] ++ (lineEqPat ++
          ((joinPositions mapsC4 ((digitsToNat ['5'] : Int) - 1)).data ++ [])))))), stIdle) ∧
    String.mk ([] ++ ('0' :: 'x' :: (['0', '0', '1', '0'] ++ (lineEqPat ++
        ((joinPositions mapsC4 ((digitsToNat ['5'] : Int) - 1)).data ++ [])))))
      = "0x0010 line=Foo.java:10" ∧
    symbolicate mapsC4 stIdle
        (String.mk ([] ++ ('0' :: 'x' :: (['0', '0', '1', '0'] ++ (lineEqPat ++ (['7'] ++ []))))))
      = (some (String.mk ([] ++ ('0' :: 'x' :: (['0', '0', '1', '0'] ++ (lineEqPat ++
          ((joinPositions mapsC4 ((digitsToNat ['7'] : Int) - 1)).data ++ [])))))), stIdle) ∧
    String.mk ([] ++ ('0' :: 'x' :: (['0', '0', '1', '0'] ++ (lineEqPat ++
        ((joinPositions mapsC4 ((digitsToNat ['7'] : Int) - 1)).data ++ [])))))
      = "0x0010 line=" :=
  ⟨by decide,
   C4_line_expansion mapsC4 stIdle [] ['0', '0', '1', '0'] ['5'] [] rfl (by decide)
     (by decide) (by decide) (by decide) (by decide) (by decide) rfl,
   by decide,
   C4_line_expansion mapsC4 stIdle [] ['0', '0', '1', '0'] ['7'] [] rfl (by decide)
     (by decide) (by decide) (by decide) (by decide) (by decide) rfl,
   by decide⟩

/-- Claim C5: on a line assembled from matchless separators and embedded
class descriptors, every descriptor whose slash-to-dot name is a key of the
class map is rewritten to the descriptor of the mapped name, and every
other descriptor is left unchanged (classRepl cases on the map), with the
surrounding text preserved. -/
theorem C5_class_rewrite (maps : SymbolMaps) (st : DexState)
    (ps : List (List Char × List Char)) (tail : List Char)
    (hio : maps.iodi_metadata = none)
    (hps : ∀ pr ∈ ps,
      (∀ c ∈ pr.1, c ≠ 'L') ∧ lastWord false pr.1 = false ∧ clsOk pr.2 = true)
    (htail : ∀ c ∈ tail, c ≠ 'L')
    (hnol : lineSearch (mkOut maps.class_map ps tail) = none) :
    symbolicate maps st (String.mk (mkLine ps tail))
      = (some (String.mk (mkOut maps.class_map ps tail)), st) := by
  have h1 : applySubs maps (String.mk (mkLine ps tail))
      = String.mk (mkOut maps.class_map ps tail) := by
    rw [applySubs]
    have hd : (String.mk (mkLine ps tail)).data = mkLine ps tail := rfl
    rw [hd, classSubL_segments maps.class_map ps tail hps htail, lineSubL,
      lineSubAux_noMatch maps hnol]
  simp [symbolicate, hio, h1]

/-- Witness for C5: `Lcom/Foo; Lcom/Bar;` with map com.Foo to a.b.C
rewrites to `La/b/C; Lcom/Bar;` (the unmapped descriptor unchanged). -/
theorem C5_witness :
    String.mk (mkLine [([], "com/Foo".data), ([' '], "com/Bar".data)] [])
        = "Lcom/Foo; Lcom/Bar;" ∧
    String.mk (mkOut mapsC4.class_map [([], "com/Foo".data), ([' '], "com/Bar".data)] [])
        = "La/b/C; Lcom/Bar;" ∧
    symbolicate mapsC4 stIdle
        (String.mk (mkLine [([], "com/Foo".data), ([' '], "com/Bar".data)] []))
      = (some (String.mk
          (mkOut mapsC4.class_map [([], "com/Foo".data), ([' '], "com/Bar".data)] [])),
         stIdle) :=
  ⟨by decide, by decide,
   C5_class_rewrite mapsC4 stIdle [([], "com/Foo".data), ([' '], "com/Bar".data)] []
     rfl (by decide) (by decide) (by decide)⟩
